import Mathlib

/-!
Verification development for the citation parsing engine of the
`citations` repository (`src/utils/citationParser.ts`, second revision of
the file, which is the one the application exports).

The embedding models JavaScript strings as `List Char` (`Str`), JS numbers
appearing in scores as exact rationals (`ℚ`; every literal in the source is
a short decimal, so the rational model agrees with IEEE doubles on every
comparison the code performs), and each regular expression of the source as
a hand-derived deterministic matcher that implements the exact
leftmost/greedy/lazy backtracking semantics of the JS regex engine for that
pattern.  `Array.prototype.sort` is modelled as a stable insertion sort
(the comparator-visible behaviour of the engine for the short arrays the
code sorts).  The one loop of the source that does not terminate — the
sentence-boundary `exec` scan in `parseEndOfSentenceCitations`, whose
pattern can match the empty string at position 0 via `^` without advancing
`lastIndex` — is modelled by an `Option` result, `none` standing for the
infinite loop.
-/

set_option maxRecDepth 4000

/-- JS strings are modelled as lists of characters. -/
abbrev Str := List Char

/-- Convert a Lean string literal to the model type. -/
def str (s : String) : Str := s.toList

/-- The `\d` character class of JS regexes. -/
def jsIsDigit (c : Char) : Bool := '0' ≤ c ∧ c ≤ '9'

/-- The `\s` character class of JS regexes, restricted to the ASCII
whitespace characters (the inputs of this code are ASCII). -/
def jsIsSpace (c : Char) : Bool :=
  c = ' ' ∨ c = '\t' ∨ c = '\n' ∨ c = '\r' ∨ c = '\x0b' ∨ c = '\x0c'

/-- `String.prototype.toLowerCase`, ASCII range (the code only lowercases
ASCII marker labels and anchor text). -/
def jsToLower (s : Str) : Str := s.map Char.toLower

/-- `String.prototype.trim`. -/
def jsTrim (s : Str) : Str :=
  ((s.dropWhile jsIsSpace).reverse.dropWhile jsIsSpace).reverse

/-- `String.prototype.substring` with its clamping semantics: both
arguments are clamped to the string length (negative arguments of the
source are already truncated at 0 by `Nat`, which matches the JS clamp),
and swapped when out of order. -/
def jsSubstring (s : Str) (a b : Nat) : Str :=
  let len := s.length
  let a' := min a len
  let b' := min b len
  (s.take (max a' b')).drop (min a' b')

/-- `String.prototype.indexOf` (no `fromIndex` argument — the source never
passes one): index of the first occurrence, `none` for `-1`. -/
def jsIndexOf (hay needle : Str) : Option Nat :=
  (List.range (hay.length + 1)).find? (fun i => needle.isPrefixOf (hay.drop i))

/-- `String.prototype.includes`. -/
def jsIncludes (hay needle : Str) : Bool := (jsIndexOf hay needle).isSome

mutual

/-- Helper of `jsSplitWs`: accumulating the current piece (reversed). -/
def jsSplitWsAux (cur : Str) : Str → List Str
  | [] => [cur.reverse]
  | c :: rest =>
    if jsIsSpace c then cur.reverse :: jsSplitWsGo rest
    else jsSplitWsAux (c :: cur) rest
termination_by s => s.length

/-- Helper of `jsSplitWs`: inside a whitespace separator run. -/
def jsSplitWsGo : Str → List Str
  | [] => [[]]
  | c :: rest => if jsIsSpace c then jsSplitWsGo rest else jsSplitWsAux [c] rest
termination_by s => s.length

end

/-- `String.prototype.split(/\s+/)`: pieces between maximal whitespace
runs, with the empty leading/trailing pieces JS produces. -/
def jsSplitWs (s : Str) : List Str := jsSplitWsAux [] s

/-- Decimal rendering of a natural number (the template literals
`${index + 1}` and `${citationMarkers.length + 1}` of the source). -/
def natToStr (n : Nat) : Str := Nat.toDigits 10 n

/-- JS string truthiness for optional string fields: `undefined` and the
empty string are falsy. -/
def jsTruthyStr : Option Str → Bool
  | none => false
  | some s => s ≠ []

/-- `a || b` on an optional string (`citation.highlightedText ||
citation.content.substring(0, 100)`). -/
def jsOrStr (a : Option Str) (b : Str) : Str :=
  match a with
  | none => b
  | some s => if s = [] then b else s

/-- `x || 0` on an optional score (`citation.quality || 0`): `undefined`
and `0` both give `0`. -/
def jsOrZero (a : Option ℚ) : ℚ := a.getD 0

/-- Stable insertion of `x`: placed before the first element `y` with
`lt x y` (the element behaviour of the engine's stable
`Array.prototype.sort` for a comparator whose sign defines `lt`). -/
def jsInsert (lt : α → α → Bool) (x : α) : List α → List α
  | [] => [x]
  | y :: ys => if lt x y then x :: y :: ys else y :: jsInsert lt x ys

/-- Stable sort (model of `Array.prototype.sort`); `lt a b` means the
comparator returned a negative number on `(a, b)`. -/
def jsSort (lt : α → α → Bool) (l : List α) : List α :=
  l.foldl (fun acc x => jsInsert lt x acc) []

/-- Lexicographic comparison standing in for
`String.prototype.localeCompare` (the bibliography sorts ASCII titles, for
which the default locale agrees with code-unit order). -/
def jsLocaleLt : Str → Str → Bool
  | [], [] => false
  | [], _ :: _ => true
  | _ :: _, [] => false
  | a :: as, b :: bs => if a < b then true else if b < a then false else jsLocaleLt as bs

/- ===================== regex matchers =====================

Each pattern of the source is embedded as a deterministic matcher derived
from the backtracking semantics of the JS regex engine for that concrete
pattern (alternatives tried left to right, greedy quantifiers longest
first, lazy quantifiers shortest first, leftmost match wins).  A matcher
receives the whole subject and an absolute start position and returns the
length of the match at that position together with the captured groups. -/

/-- One match of a global regex: start index, full-match length, captures. -/
structure MatchInfo where
  index : Nat
  length : Nat
  caps : List Str
deriving DecidableEq, Repr

/-- A matcher attempts a match anchored at one position. -/
abbrev Matcher := Str → Nat → Option (Nat × List Str)

/-- Consume a literal. -/
def dropLit (lit r : Str) : Option Str :=
  if lit.isPrefixOf r then some (r.drop lit.length) else none

/-- First match at or after position `p` (the scanning step of
`RegExpBuiltinExec`). -/
def firstMatchFrom (m : Matcher) (s : Str) (p : Nat) : Option MatchInfo :=
  (List.range' p (s.length + 1 - p)).findSome? fun i =>
    (m s i).map fun r => ⟨i, r.1, r.2⟩

/-- The `while ((match = re.exec(text)) !== null)` loop of a global regex,
collecting all matches.  Every pattern passed to `execAll` consumes at
least one character on success, so the defensive progress guard and the
fuel bound are unreachable. -/
def execAllAux (m : Matcher) (s : Str) : Nat → Nat → List MatchInfo
  | 0, _ => []
  | fuel + 1, p =>
    match firstMatchFrom m s p with
    | none => []
    | some mi =>
      if mi.index + mi.length ≤ p then []
      else mi :: execAllAux m s fuel (mi.index + mi.length)

/-- All matches of a global regex over `s`. -/
def execAll (m : Matcher) (s : Str) : List MatchInfo :=
  execAllAux m s (s.length + 2) 0

/-- `String.prototype.replace(re, '')` for a global regex: the subject with
the (non-overlapping, left-to-right) match spans removed. -/
def removeSpans (s : Str) (ms : List MatchInfo) : Str :=
  let st := ms.foldl (fun (st : Str × Nat) mi =>
    (st.1 ++ jsSubstring s st.2 mi.index, mi.index + mi.length)) ([], 0)
  st.1 ++ s.drop st.2

/-- `(\d+)` followed by a literal: the digit run is maximal (the following
literal starts with a non-digit, so backtracking never shortens it). -/
def digitsThen (lit r : Str) : Option (Str × Str) :=
  let d := r.takeWhile jsIsDigit
  if d = [] then none
  else (dropLit lit (r.drop d.length)).map fun r' => (d, r')

/-- The pattern `/\[CITE:(\d+)\]/` at one position. -/
def matchCiteAt : Matcher := fun s p => do
  let r ← dropLit (str "[CITE:") (s.drop p)
  let (d, _) ← digitsThen (str "]") r
  return (7 + d.length, [d])

/-- The closing part `\[\/CITE:\d+\]` of the wrapped pattern: returns the
(uncaptured) digits and the consumed length. -/
def tryClose (r : Str) : Option (Str × Nat) := do
  let r1 ← dropLit (str "[/CITE:") r
  let (d, _) ← digitsThen (str "]") r1
  return (d, 8 + d.length)

/-- The lazy `(.*?)` of the wrapped pattern: the shortest newline-free span
after which the closing tag matches (`.` does not match `'\n'`).  Returns
(cited text, closing digits, length of cited text plus closing tag). -/
def findClose (acc : Str) : Str → Option (Str × Str × Nat)
  | [] => (tryClose []).map fun pr => (acc.reverse, pr.1, acc.length + pr.2)
  | c :: r' =>
    match tryClose (c :: r') with
    | some pr => some (acc.reverse, pr.1, acc.length + pr.2)
    | none => if c = '\n' then none else findClose (c :: acc) r'

/-- The pattern `/\[CITE:(\d+)\](.*?)\[\/CITE:\d+\]/` at one position. -/
def matchWrappedAt : Matcher := fun s p => do
  let r ← dropLit (str "[CITE:") (s.drop p)
  let (d1, r1) ← digitsThen (str "]") r
  let (cited, _, tailLen) ← findClose [] r1
  return (7 + d1.length + tailLen, [d1, cited])

/-- The backtracking decomposition of `\s*([^X\n...]+)\s*` against a region
`R` that is followed by the closing delimiter: the leading `\s*` is tried
longest first, then the capture longest first, and the remainder must be
whitespace.  `good` is the character class of the capture. -/
def decompField (good : Char → Bool) (R : Str) : Option Str :=
  ((List.range ((R.takeWhile jsIsSpace).length + 1)).reverse).findSome? fun s1len =>
    let t := R.drop s1len
    let grun := t.takeWhile good
    (((List.range grun.length).reverse).map (· + 1)).findSome? fun glen =>
      if (t.drop glen).all jsIsSpace then some (t.take glen) else none

/-- One field `\s*([^|]+)\s*\|` (or, with `']'`, the final
`\s*([^\]]+)\]`): capture together with the remainder after the delimiter
and the consumed length. -/
def fieldUpTo (stop : Char) (r : Str) : Option (Str × Str × Nat) :=
  let R := r.takeWhile (fun c => c ≠ stop)
  if R.length < r.length then
    (decompField (fun c => c ≠ stop) R).map fun g =>
      (g, r.drop (R.length + 1), R.length + 1)
  else none

/-- `\s*` followed by a literal: the whitespace run is maximal (the literal
starts with a non-whitespace character). -/
def spacesThen (lit r : Str) : Option (Str × Nat) :=
  let w := r.takeWhile jsIsSpace
  (dropLit lit (r.drop w.length)).map fun r' => (r', w.length + lit.length)

/-- Group 4 part `\(([^)]+)\)` of the simplified source pattern. -/
def parenGroup (r : Str) : Option (Str × Nat) :=
  match r with
  | '(' :: r1 =>
    let g := r1.takeWhile (fun c => c ≠ ')')
    if g = [] then none
    else if r1.drop g.length = [] then none
    else some (g, g.length + 2)
  | _ => none

/-- Groups 3 and 4 `([^\s\n]+)\s*\(([^)]+)\)` of the simplified source
pattern: the non-whitespace run is taken maximally; if `\s*\(` does not
follow, backtracking shortens the capture to the largest prefix that is
immediately followed by `'('` inside the run. -/
def urlThenParen (r : Str) : Option (Str × Str × Nat) :=
  let run := r.takeWhile (fun c => ¬ jsIsSpace c)
  if run = [] then none
  else
    let rest := r.drop run.length
    let w2 := rest.takeWhile jsIsSpace
    match parenGroup (rest.drop w2.length) with
    | some (g4, plen) => some (run, g4, run.length + w2.length + plen)
    | none =>
      ((List.range run.length).reverse).findSome? fun k =>
        if k = 0 then none
        else if run.get? k = some '(' then
          (parenGroup (run.drop k ++ rest)).map fun pr =>
            (run.take k, pr.1, k + pr.2)
        else none

/-- The simplified numbered source pattern
`/\[Source:(\d+)\]\s*([^-\n]+)\s*-\s*([^\s\n]+)\s*\(([^)]+)\)/` at one
position. -/
def matchSourceAt : Matcher := fun s p => do
  let r ← dropLit (str "[Source:") (s.drop p)
  let (d, r0) ← digitsThen (str "]") r
  let R := r0.takeWhile (fun c => c ≠ '-')
  if R.length < r0.length then
    let g2 ← decompField (fun c => c ≠ '-' ∧ c ≠ '\n') R
    let r1 := r0.drop (R.length + 1)
    let w1 := r1.takeWhile jsIsSpace
    let (g3, g4, ulen) ← urlThenParen (r1.drop w1.length)
    return (8 + d.length + 1 + R.length + 1 + w1.length + ulen, [d, g2, g3, g4])
  else none

/-- The legacy pipe-delimited full pattern
`/\[Source:\s*([^|]+)\s*\|\s*URL:\s*([^|]+)\s*\|\s*Date:\s*([^|]+)\s*\|\s*Confidence:\s*([^\]]+)\]/`
at one position. -/
def matchLegacyAt : Matcher := fun s p => do
  let r0 ← dropLit (str "[Source:") (s.drop p)
  let (g1, r1, c1) ← fieldUpTo '|' r0
  let (r1', u1) ← spacesThen (str "URL:") r1
  let (g2, r2, c2) ← fieldUpTo '|' r1'
  let (r2', u2) ← spacesThen (str "Date:") r2
  let (g3, r3, c3) ← fieldUpTo '|' r2'
  let (r3', u3) ← spacesThen (str "Confidence:") r3
  let (g4, _, c4) ← fieldUpTo ']' r3'
  return (8 + c1 + u1 + c2 + u2 + c3 + u3 + c4, [g1, g2, g3, g4])

/-- The backwards-compatible pipe pattern
`/\[Source:(\d+)\s*\|\s*Title:\s*([^|]+)\s*\|\s*URL:\s*([^|]+)\s*\|\s*Date:\s*([^|]+)\s*\|\s*Confidence:\s*([^\]]+)\]/`
at one position. -/
def matchOldSourceAt : Matcher := fun s p => do
  let r0 ← dropLit (str "[Source:") (s.drop p)
  let d := r0.takeWhile jsIsDigit
  if d = [] then none else
  let w := (r0.drop d.length).takeWhile jsIsSpace
  let r1 ← dropLit (str "|") (r0.drop (d.length + w.length))
  let (r1', u1) ← spacesThen (str "Title:") r1
  let (g2, r2, c2) ← fieldUpTo '|' r1'
  let (r2', u2) ← spacesThen (str "URL:") r2
  let (g3, r3, c3) ← fieldUpTo '|' r2'
  let (r3', u3) ← spacesThen (str "Date:") r3
  let (g4, r4, c4) ← fieldUpTo '|' r3'
  let (r4', u4) ← spacesThen (str "Confidence:") r4
  let (g5, _, c5) ← fieldUpTo ']' r4'
  return (8 + d.length + w.length + 1 + u1 + c2 + u2 + c3 + u3 + c4 + u4 + c5,
    [d, g2, g3, g4, g5])

/- ===================== sentence boundary loops ===================== -/

/-- The alternative `[.!?]\s+` of the sentence-boundary patterns at one
position: returns the match length. -/
def sentDelimAt (s : Str) (p : Nat) : Option Nat :=
  match s.drop p with
  | c :: r =>
    if c = '.' ∨ c = '!' ∨ c = '?' then
      let w := r.takeWhile jsIsSpace
      if w = [] then none else some (1 + w.length)
    else none
  | [] => none

/-- The alternative `\n\s*[•\-*]\s*` of the sentence-marker pattern. -/
def bulletAt (s : Str) (p : Nat) : Option Nat :=
  match s.drop p with
  | '\n' :: r =>
    let w1 := r.takeWhile jsIsSpace
    match r.drop w1.length with
    | b :: r2 =>
      if b = '•' ∨ b = '-' ∨ b = '*' then
        some (1 + w1.length + 1 + (r2.takeWhile jsIsSpace).length)
      else none
    | [] => none
  | _ => none

/-- `findSentenceStart`: the `while`/`exec` loop over `/[.!?]\s+/g`,
breaking at the first delimiter that ends at or after `fromIndex` and
returning the end of the last delimiter before it (0 when none). -/
def findSentenceStart (text : Str) (fromIndex : Nat) : Nat :=
  ((execAll (fun s p => (sentDelimAt s p).map fun len => (len, [])) text).takeWhile
      (fun mi => mi.index + mi.length < fromIndex)).foldl
    (fun _ mi => mi.index + mi.length) 0

/-- `extractSentenceBeforeCitation`. -/
def extractSentenceBeforeCitation (text : Str) (citationIndex : Nat) : Str :=
  jsTrim (jsSubstring text (findSentenceStart text citationIndex) citationIndex)

/-- One scanning step of the sentence-marker loop of
`parseEndOfSentenceCitations` at positions after 0, where the `^`
alternative cannot fire: first `[.!?]\s+` or `\n\s*[•\-*]\s*` match at or
after `p` (the two alternatives start with distinct characters, so the
alternation is deterministic). -/
def firstSentMarkerFrom (s : Str) (p : Nat) : Option (Nat × Nat) :=
  (List.range' p (s.length + 1 - p)).findSome? fun i =>
    match sentDelimAt s i with
    | some len => some (i, len)
    | none => (bulletAt s i).map fun len => (i, len)

/-- Tail of the sentence-marker `exec` loop after a first non-empty match:
returns the end position of the last match.  Matches here are non-empty,
so the loop terminates; the fuel bound is unreachable. -/
def sentLoop (s : Str) : Nat → Nat → Nat → Nat
  | 0, _, acc => acc
  | fuel + 1, p, acc =>
    match firstSentMarkerFrom s p with
    | none => acc
    | some (i, len) => sentLoop s fuel (i + len) (i + len)

/-- The `while ((sentenceMatch = sentenceMarkers.exec(...)))` loop of
`parseEndOfSentenceCitations` over `/[.!?]\s+|^|\n\s*[•\-*]\s*/g`: when the
first alternative fails at position 0, the `^` alternative produces an
empty match there without advancing `lastIndex`, and the loop never
terminates (`none`).  Otherwise the result is the end of the last match. -/
def sentenceStartOf (textBefore : Str) : Option Nat :=
  match sentDelimAt textBefore 0 with
  | none => none
  | some len0 => some (sentLoop textBefore (textBefore.length + 2) len0 len0)

/- ===================== data model ===================== -/

/-- The `Citation['type']` union. -/
inductive SourceType
  | document | web | pdf | video | audio | image
deriving DecidableEq, Repr

/-- One search method of `createSourceDiscovery`. -/
inductive SearchMethod
  | semantic | keyword | hybrid
deriving DecidableEq, Repr

/-- The `Citation` interface (fields the parser reads or writes).  `Date`
values are opaque to every claim; `timestamp` records the raw date string
that was parsed (`none` for `new Date()` / "now"). -/
structure Citation where
  id : Str
  source : Str
  type : SourceType
  content : Str
  relevance : ℚ
  url : Option Str := none
  timestamp : Option Str := none
  confidence : Option ℚ := none
  quality : Option ℚ := none
  highlightedText : Option Str := none
  author : Option Str := none
  publishedDate : Option Str := none
deriving DecidableEq, Repr

/-- The `HighlightedText` segment record. -/
structure Seg where
  text : Str
  isHighlighted : Bool
  citationId : Option Str := none
deriving DecidableEq, Repr

/-- The `CitationReference` record. -/
structure Ref where
  citationId : Str
  inlineText : Str
  position : Nat
  highlightStart : Nat
  highlightEnd : Nat
deriving DecidableEq, Repr

/-- Concatenation of the segment texts, in order. -/
def concatSegs (l : List Seg) : Str := (l.map Seg.text).flatten

/- ===================== score helpers ===================== -/

/-- `parseConfidence`: fixed mapping of the textual label. -/
def parseConfidence (confidence : Str) : ℚ :=
  let l := jsToLower confidence
  if l = str "high" then mkRat 9 10
  else if l = str "medium" then mkRat 7 10
  else if l = str "low" then mkRat 1 2
  else mkRat 3 5

/-- `calculateQualityFromUrl`: base 0.5 plus the fixed domain bonuses
+0.2, +0.3, +0.1, +0.2, clamped at 1.  The additions are carried out in
tenths and converted to one exact rational at the end (the same
ideal-arithmetic value, kept kernel-reducible). -/
def calculateQualityFromUrl (url : Str) : ℚ :=
  let tenths : Nat := 5
  let tenths := if jsIncludes url (str ".edu") ∨ jsIncludes url (str ".gov")
    then tenths + 2 else tenths
  let tenths := if jsIncludes url (str "arxiv.org") ∨ jsIncludes url (str "scholar.google.com")
    then tenths + 3 else tenths
  let tenths := if jsIncludes url (str "wikipedia.org") then tenths + 1 else tenths
  let tenths := if jsIncludes url (str "ibm.com") ∨ jsIncludes url (str "nature.com") ∨
      jsIncludes url (str "science.org") then tenths + 2 else tenths
  min (mkRat tenths 10) 1

/-- `determineSourceType`: first matching URL-substring rule wins. -/
def determineSourceType (url : Str) : SourceType :=
  if jsIncludes url (str "youtube.com") ∨ jsIncludes url (str "youtu.be") then .video
  else if jsIncludes url (str ".pdf") then .pdf
  else if jsIncludes url (str "spotify.com") ∨ jsIncludes url (str "soundcloud.com") then .audio
  else if jsIncludes url (str ".jpg") ∨ jsIncludes url (str ".png") ∨
      jsIncludes url (str ".gif") then .image
  else if jsIncludes url (str "arxiv.org") ∨ jsIncludes url (str "docs.") ∨
      jsIncludes url (str ".doc") then .document
  else .web

/-- `parseDate`: the produced `Date` is opaque to every claim, so the model
records the raw string (the NaN fallback to `new Date()` is unobservable
here). -/
def parseDate (dateStr : Str) : Option Str := some dateStr

/- ===================== ranking / bibliography / discovery ===================== -/

/-- The comparator of `filterAndRankCitations`: relevance difference unless
within the 0.05 epsilon band, else quality difference. -/
def rankCmp (a b : Citation) : ℚ :=
  if |b.relevance - a.relevance| > mkRat 1 20 then b.relevance - a.relevance
  else jsOrZero b.quality - jsOrZero a.quality

/-- `filterAndRankCitations`. -/
def filterAndRankCitations (citations : List Citation)
    (minQuality : ℚ := mkRat 3 10) (maxCitations : Nat := 10) : List Citation :=
  ((citations.filter (fun citation => minQuality ≤ jsOrZero citation.quality)).foldl
      (fun acc x => jsInsert (fun a b => rankCmp a b < 0) x acc) []).take maxCitations

/-- One bibliography entry of `generateBibliography`. -/
def bibliographyEntry (index : Nat) (citation : Citation) : Str :=
  let entry := natToStr (index + 1) ++ str ". " ++ citation.source
  let entry := if jsTruthyStr citation.author
    then entry ++ str " by " ++ citation.author.getD [] else entry
  let entry := if jsTruthyStr citation.publishedDate
    then entry ++ str " (" ++ citation.publishedDate.getD [] ++ str ")" else entry
  let entry := if jsTruthyStr citation.url
    then entry ++ str ". Available at: " ++ citation.url.getD [] else entry
  entry

/-- `generateBibliography`.  `Array.prototype.sort` sorts the caller's
array in place, so the model returns both the display string and the state
of the input array after the call. -/
def generateBibliography (citations : List Citation) : Str × List Citation :=
  let sortedCitations := jsSort (fun a b => jsLocaleLt a.source b.source) citations
  (List.intercalate (str "\n") (sortedCitations.enum.map (fun p => bibliographyEntry p.1 p.2)),
    sortedCitations)

/-- The aggregate confidence of `createSourceDiscovery`:
`avgConfidence || 0.7`, where the average of an empty list is `NaN`
(falsy, like an average of exactly 0). -/
def discoveryConfidence (citations : List Citation) : ℚ :=
  if citations.length = 0 then mkRat 7 10
  else if (citations.map (fun c => jsOrZero c.confidence)).sum / citations.length = 0
    then mkRat 7 10
    else (citations.map (fun c => jsOrZero c.confidence)).sum / citations.length

/-- The `SourceDiscovery` record (timestamp omitted: `new Date()` is
opaque to every claim). -/
structure SourceDiscovery where
  query : Str
  results : List Citation
  confidence : ℚ
  context : Str
  searchMethod : SearchMethod
deriving DecidableEq, Repr

/-- `createSourceDiscovery`. -/
def createSourceDiscovery (query : Str) (citations : List Citation) (context : Str)
    (searchMethod : SearchMethod := .semantic) : SourceDiscovery :=
  { query := query
    results := citations
    confidence := discoveryConfidence citations
    context := context
    searchMethod := searchMethod }

/- ===================== citation builders ===================== -/

/-- The `Map<string, Citation>` of the parser, in insertion order. -/
abbrev SMap := List (Str × Citation)

/-- `Map.prototype.has`. -/
def mapHas (m : SMap) (k : Str) : Bool := (m.lookup k).isSome

/-- `Map.prototype.set`: replace in place when the key exists, append
otherwise (preserving insertion order). -/
def mapSet (m : SMap) (k : Str) (v : Citation) : SMap :=
  if mapHas m k then m.map (fun e => if e.1 == k then (k, v) else e) else m ++ [(k, v)]

/-- First capture of a match (the marker's source id). -/
def capId (mi : MatchInfo) : Str := mi.caps.getD 0 []

/-- The citation built from one simplified `[Source:n] Title - URL (Date)`
match. -/
def mkSourceCitation (caps : List Str) : Citation :=
  let sourceId := caps.getD 0 []
  let title := caps.getD 1 []
  let url := caps.getD 2 []
  let date := caps.getD 3 []
  { id := str "inline-citation-" ++ sourceId
    source := jsTrim title
    type := determineSourceType (jsTrim url)
    content := str "Information from " ++ jsTrim title
    relevance := mkRat 4 5
    url := some (jsTrim url)
    timestamp := parseDate (jsTrim date)
    confidence := some (mkRat 7 10)
    quality := some (calculateQualityFromUrl (jsTrim url))
    highlightedText := some [] }

/-- The citation built from one backwards-compatible pipe-delimited
`[Source:n | Title: ... | URL: ... | Date: ... | Confidence: ...]`
match. -/
def mkOldSourceCitation (caps : List Str) : Citation :=
  let sourceId := caps.getD 0 []
  let title := caps.getD 1 []
  let url := caps.getD 2 []
  let date := caps.getD 3 []
  let confidence := caps.getD 4 []
  { id := str "inline-citation-" ++ sourceId
    source := jsTrim title
    type := determineSourceType (jsTrim url)
    content := str "Information from " ++ jsTrim title
    relevance := parseConfidence (jsTrim confidence)
    url := some (jsTrim url)
    timestamp := parseDate (jsTrim date)
    confidence := some (parseConfidence (jsTrim confidence))
    quality := some (calculateQualityFromUrl (jsTrim url))
    highlightedText := some [] }

/-- The fallback citation created for a `[CITE:n]` marker with no source
entry. -/
def fallbackCitation (citationId : Str) : Citation :=
  { id := str "inline-citation-" ++ citationId
    source := str "Research Source " ++ citationId
    type := .web
    content := str "Referenced information from source " ++ citationId
    relevance := mkRat 7 10
    url := some (str "#source-" ++ citationId)
    timestamp := none
    confidence := some (mkRat 3 5)
    quality := some (mkRat 1 2)
    highlightedText := some [] }

/-- The citation built from one legacy pipe-delimited marker in
`parseTextWithMarkers` (`ord` is its position in the marker list). -/
def mkLegacyCitation (text : Str) (ord : Nat) (mi : MatchInfo) : Citation :=
  let title := mi.caps.getD 0 []
  let url := mi.caps.getD 1 []
  let date := mi.caps.getD 2 []
  let confidence := mi.caps.getD 3 []
  { id := str "citation-" ++ natToStr (ord + 1)
    source := jsTrim title
    type := determineSourceType (jsTrim url)
    content := str "Citation from " ++ jsTrim title
    relevance := parseConfidence (jsTrim confidence)
    url := some (jsTrim url)
    timestamp := parseDate (jsTrim date)
    confidence := some (parseConfidence (jsTrim confidence))
    quality := some (calculateQualityFromUrl (jsTrim url))
    highlightedText := some (extractSentenceBeforeCitation text mi.index) }

/-- Insertion-order deduplication (`new Set(...)` iteration order). -/
def dedupIds (l : List Str) : List Str :=
  l.foldl (fun acc x => if acc.contains x then acc else acc ++ [x]) []

/-- The fallback-creation `forEach` over the marker ids. -/
def addFallbacks (ids : List Str) (st : SMap × List Citation) : SMap × List Citation :=
  ids.foldl
    (fun st cid =>
      if mapHas st.1 cid then st
      else (mapSet st.1 cid (fallbackCitation cid), st.2 ++ [fallbackCitation cid]))
    st

/- ===================== the parsers ===================== -/

/-- The `{segments, references}` result, together with the final state of
the sources map and of the extracted-citation list (the
`globalThis.__extractedCitations` side channel; for `parseTextWithMarkers`
the locally built marker citations). -/
structure ParseOut where
  segments : List Seg
  references : List Ref
  sources : SMap := []
  extracted : List Citation := []
deriving DecidableEq, Repr

/-- One wrapped-citation match step of `parseWrappedCitations` (state:
segments, references, sources map, `lastIndex`). -/
def wrappedStep (cleanText : Str) (st : List Seg × List Ref × SMap × Nat)
    (m : MatchInfo) : List Seg × List Ref × SMap × Nat :=
  let (segs, refs, sources, lastIndex) := st
  let sourceId := m.caps.getD 0 []
  let citedText := m.caps.getD 1 []
  let segs := if lastIndex < m.index then
      (let beforeText := jsSubstring cleanText lastIndex m.index
       if jsTrim beforeText ≠ [] then segs ++ [⟨beforeText, false, none⟩] else segs)
    else segs
  match sources.lookup sourceId with
  | some citation =>
    (segs ++ [⟨citedText, true, some citation.id⟩],
     refs ++ [⟨citation.id, citedText, m.index, m.index, m.index + citedText.length⟩],
     mapSet sources sourceId { citation with highlightedText := some (jsTrim citedText) },
     m.index + m.length)
  | none => (segs ++ [⟨citedText, false, none⟩], refs, sources, m.index + m.length)

/-- `parseWrappedCitations`. -/
def parseWrappedCitations (cleanText : Str) (sources : SMap)
    (extracted : List Citation) : ParseOut :=
  let ids := dedupIds ((execAll matchCiteAt cleanText).map capId)
  let st1 := addFallbacks ids (sources, extracted)
  let st := (execAll matchWrappedAt cleanText).foldl (wrappedStep cleanText)
    (([] : List Seg), ([] : List Ref), st1.1, 0)
  let segs := if st.2.2.2 < cleanText.length then
      (let remainingText := jsSubstring cleanText st.2.2.2 cleanText.length
       if jsTrim remainingText ≠ [] then st.1 ++ [⟨remainingText, false, none⟩] else st.1)
    else st.1
  { segments := segs, references := st.2.1, sources := st.2.2.1, extracted := st1.2 }

/-- Sum of match lengths (the position-adjustment loops of
`parseEndOfSentenceCitations`). -/
def sumLens (l : List MatchInfo) : Nat := (l.map MatchInfo.length).sum

/-- The per-citation `forEach` of `parseEndOfSentenceCitations`, which for
each marker scans the text before it for the last sentence boundary.
`prev` holds the already processed matches.  A `none` result models the
non-terminating sentence-boundary scan. -/
def eosGo (cleanText twc : Str) (prev : List MatchInfo) (rest : List MatchInfo)
    (segs : List Seg) (refs : List Ref) (sources : SMap) (pIdx : Nat) :
    Option (List Seg × List Ref × SMap × Nat) :=
  match rest with
  | [] => some (segs, refs, sources, pIdx)
  | m :: rest' =>
    let adjCit := m.index - sumLens (prev.filter (fun pm => pm.index < m.index))
    match sentenceStartOf (jsSubstring cleanText 0 m.index) with
    | none => none
    | some sStart =>
      let adjSent := sStart - sumLens (prev.filter (fun pm => pm.index < sStart))
      let segs := if pIdx < adjSent then
          (let beforeText := jsSubstring twc pIdx adjSent
           if jsTrim beforeText ≠ [] then segs ++ [⟨beforeText, false, none⟩] else segs)
        else segs
      let tth := jsSubstring twc adjSent adjCit
      match sources.lookup (capId m) with
      | some citation =>
        if jsTrim tth ≠ [] then
          eosGo cleanText twc (prev ++ [m]) rest'
            (segs ++ [⟨tth, true, some citation.id⟩])
            (refs ++ [⟨citation.id, jsTrim tth, adjSent, adjSent, adjCit⟩])
            (mapSet sources (capId m) { citation with highlightedText := some (jsTrim tth) })
            adjCit
        else eosGo cleanText twc (prev ++ [m]) rest' segs refs sources adjCit
      | none => eosGo cleanText twc (prev ++ [m]) rest' segs refs sources adjCit

/-- The fallback-extended sources map and extracted list of
`parseEndOfSentenceCitations`. -/
def eosFallbacks (cleanText : Str) (sources : SMap) (extracted : List Citation) :
    SMap × List Citation :=
  addFallbacks (dedupIds ((execAll matchCiteAt cleanText).map capId))
    (sources, extracted)

/-- The marker-stripped text of `parseEndOfSentenceCitations`
(`cleanText.replace(citationPattern, '')`). -/
def eosText (cleanText : Str) : Str :=
  removeSpans cleanText (execAll matchCiteAt cleanText)

/-- `parseEndOfSentenceCitations`; `none` models the infinite
sentence-boundary `exec` loop. -/
def parseEndOfSentenceCitations (cleanText : Str) (sources : SMap)
    (extracted : List Citation) : Option ParseOut :=
  if (execAll matchCiteAt cleanText).isEmpty then
    some { segments := [⟨cleanText, false, none⟩], references := [],
           sources := (eosFallbacks cleanText sources extracted).1,
           extracted := (eosFallbacks cleanText sources extracted).2 }
  else
    (eosGo cleanText (eosText cleanText) []
        (jsSort (fun a b => a.index < b.index) (execAll matchCiteAt cleanText)) [] []
        (eosFallbacks cleanText sources extracted).1 0).map fun st =>
      let segs := if st.2.2.2 < (eosText cleanText).length then
          (let remainingText := jsSubstring (eosText cleanText) st.2.2.2
            (eosText cleanText).length
           if jsTrim remainingText ≠ [] then st.1 ++ [⟨remainingText, false, none⟩]
           else st.1)
        else st.1
      { segments := segs, references := st.2.1, sources := st.2.2.1,
        extracted := (eosFallbacks cleanText sources extracted).2 }

/-- One marker step of `parseTextWithMarkers` (state: segments, references,
`currentIndex`). -/
def markerStep (text : Str) (st : List Seg × List Ref × Nat)
    (mc : MatchInfo × Citation) : List Seg × List Ref × Nat :=
  let (segs, refs, currentIndex) := st
  let (m, citation) := mc
  let sentenceStart := findSentenceStart text m.index
  let segs := if currentIndex < sentenceStart then
      segs ++ [⟨jsSubstring text currentIndex sentenceStart, false, none⟩]
    else segs
  let sr := if sentenceStart < m.index then
      (let sentenceText := jsTrim (jsSubstring text sentenceStart m.index)
       if sentenceText ≠ [] then
         (segs ++ [⟨sentenceText, true, some citation.id⟩],
          refs ++ [⟨citation.id, sentenceText, sentenceStart, sentenceStart, m.index⟩])
       else (segs, refs))
    else (segs, refs)
  (sr.1, sr.2, m.index + m.length)

/-- `parseTextWithMarkers` (`extracted` holds the marker citations the
function builds). -/
def parseTextWithMarkers (text : Str) : ParseOut :=
  let ms := execAll matchLegacyAt text
  let markers := ms.enum.map (fun p => (p.2, mkLegacyCitation text p.1 p.2))
  if ms.isEmpty then
    { segments := [], references := [], sources := [], extracted := markers.map (·.2) }
  else
    let st := markers.foldl (markerStep text) (([] : List Seg), ([] : List Ref), 0)
    let (segs, refs, currentIndex) := st
    let segs := if currentIndex < text.length then
        segs ++ [⟨text.drop currentIndex, false, none⟩]
      else segs
    { segments := segs, references := refs, sources := [], extracted := markers.map (·.2) }

/-- `extractKeyPhrases`: 3–5 word sliding windows of at least 15
characters. -/
def extractKeyPhrases (text : Str) : List Str :=
  let words := jsSplitWs text
  if words.length < 3 then []
  else
    (List.range (words.length - 2)).flatMap fun i =>
      (List.range' 3 (min 5 (words.length - i) - 2)).filterMap fun len =>
        let phrase := List.intercalate (str " ") ((words.drop i).take len)
        if 15 ≤ phrase.length then some phrase else none

/-- The search needle of the anchor-matching segmenter: the first 50
characters of the lowercased anchor text. -/
def pteNeedle (citation : Citation) : Str :=
  let highlightText := jsOrStr citation.highlightedText (jsSubstring citation.content 0 100)
  jsSubstring (jsToLower highlightText) 0 (min 50 highlightText.length)

/-- The match position of one citation in the anchor-matching segmenter:
exact case-insensitive search over the whole text (note: not from the
cursor), then the key-phrase fallback. -/
def pteMatchIndex (text : Str) (citation : Citation) : Option Nat :=
  match jsIndexOf (jsToLower text) (pteNeedle citation) with
  | some i => some i
  | none =>
    (extractKeyPhrases
        (jsOrStr citation.highlightedText (jsSubstring citation.content 0 100))).findSome?
      fun phrase =>
        if 15 ≤ phrase.length then jsIndexOf (jsToLower text) (jsToLower phrase) else none

/-- One citation step of `parseTextWithExistingCitations` (state:
`currentIndex`, segments, references). -/
def pteStep (text : Str) (st : Nat × List Seg × List Ref) (citation : Citation) :
    Nat × List Seg × List Ref :=
  let (currentIndex, segs, refs) := st
  let highlightText := jsOrStr citation.highlightedText (jsSubstring citation.content 0 100)
  match pteMatchIndex text citation with
  | some matchIndex =>
    if currentIndex ≤ matchIndex then
      let e := min (matchIndex + highlightText.length) text.length
      let segs := if currentIndex < matchIndex then
          segs ++ [⟨jsSubstring text currentIndex matchIndex, false, none⟩]
        else segs
      (e,
       segs ++ [⟨jsSubstring text matchIndex e, true, some citation.id⟩],
       refs ++ [⟨citation.id, jsSubstring text matchIndex e, matchIndex, matchIndex, e⟩])
    else st
  | none => st

/-- `parseTextWithExistingCitations`: the anchor-matching fallback
segmenter. -/
def parseTextWithExistingCitations (text : Str) (citations : List Citation) : ParseOut :=
  let st := citations.foldl (pteStep text) (0, ([] : List Seg), ([] : List Ref))
  let (currentIndex, segs, refs) := st
  let segs := if currentIndex < text.length then
      segs ++ [⟨text.drop currentIndex, false, none⟩]
    else segs
  let segs := if segs.isEmpty then [⟨text, false, none⟩] else segs
  { segments := segs, references := refs, sources := [], extracted := [] }

/-- The sources map and extracted-citation list built from the simplified
source entries and then the backwards-compatible pipe entries of the raw
text. -/
def inlineSources (text : Str) : SMap × List Citation :=
  (execAll matchOldSourceAt text).foldl
    (fun (st : SMap × List Citation) m =>
      if mapHas st.1 (capId m) then st
      else (mapSet st.1 (capId m) (mkOldSourceCitation m.caps),
            st.2 ++ [mkOldSourceCitation m.caps]))
    ((execAll matchSourceAt text).foldl
      (fun (st : SMap × List Citation) m =>
        (mapSet st.1 (capId m) (mkSourceCitation m.caps),
         st.2 ++ [mkSourceCitation m.caps]))
      ([], []))

/-- The text with both source-reference formats removed and trimmed
(`text.replace(sourcePattern, '').replace(oldSourcePattern, '').trim()`;
the second replace re-scans the once-replaced text). -/
def inlineCleanText (text : Str) : Str :=
  jsTrim (removeSpans (removeSpans text (execAll matchSourceAt text))
    (execAll matchOldSourceAt (removeSpans text (execAll matchSourceAt text))))

/-- `parseInlineCitations`: extract the source list (both simplified and
backwards-compatible formats), strip it, and dispatch on the presence of a
wrapped citation. -/
def parseInlineCitations (text : Str) : Option ParseOut :=
  match firstMatchFrom matchWrappedAt (inlineCleanText text) 0 with
  | some _ => some (parseWrappedCitations (inlineCleanText text)
      (inlineSources text).1 (inlineSources text).2)
  | none => parseEndOfSentenceCitations (inlineCleanText text)
      (inlineSources text).1 (inlineSources text).2

/-- `parseTextWithHighlighting`: inline parse first, legacy markers second,
anchor matching last; a dialect is kept as soon as it returns at least one
segment.  `none` models the non-terminating sentence-boundary scan. -/
def parseTextWithHighlighting (text : Str) (citations : List Citation) : Option ParseOut :=
  (parseInlineCitations text).bind fun inlineRes =>
    if inlineRes.segments.isEmpty then
      let markerRes := parseTextWithMarkers text
      if markerRes.segments.isEmpty then
        some (parseTextWithExistingCitations text citations)
      else some markerRes
    else some inlineRes

/-- Look up the citation a highlighted segment is tagged with, by id, in
the extracted-citation list, and return its url. -/
def urlOfCitation (out : ParseOut) (cid : Option Str) : Option Str :=
  cid.bind fun c => (out.extracted.find? (fun x => x.id == c)).bind Citation.url

/- ===================== statement vocabulary ===================== -/

/-- Non-overlap of the produced highlight spans, in production order: each
reference ends at or before the next one starts. -/
def RefChain (refs : List Ref) : Prop :=
  List.Chain' (fun a b => a.highlightEnd ≤ b.highlightStart) refs

/-- All scores of a citation lie in [0, 1]. -/
def scoresOk (c : Citation) : Prop :=
  0 ≤ c.relevance ∧ c.relevance ≤ 1 ∧
  (∀ q ∈ c.confidence, 0 ≤ q ∧ q ≤ 1) ∧
  (∀ q ∈ c.quality, 0 ≤ q ∧ q ≤ 1)

/-- An input that contains only a legacy pipe-delimited marker. -/
def legacyInput : Str :=
  str "Fact A. [Source: MyTitle | URL: http://e.com | Date: 2024 | Confidence: High]"

/-- A citation with relevance 0.5 and quality 0.9. -/
def rankCexA : Citation :=
  { id := str "A", source := str "a", type := .web, content := [],
    relevance := mkRat 1 2, quality := some (mkRat 9 10) }

/-- A citation with relevance 0.52 (within the 0.05 epsilon band of 0.5)
and quality 0.1. -/
def rankCexB : Citation :=
  { id := str "B", source := str "b", type := .web, content := [],
    relevance := mkRat 13 25, quality := some (mkRat 1 10) }

/-- A citation whose anchor text is the phrase at the start of the
anchor-matching counterexample text. -/
def anchorCexA : Citation :=
  { id := str "c1", source := str "s1", type := .web, content := [],
    relevance := mkRat 1 2, highlightedText := some (str "abc def") }

/-- A citation whose anchor text occurs both before and after the cursor
in the anchor-matching counterexample text. -/
def anchorCexB : Citation :=
  { id := str "c2", source := str "s2", type := .web, content := [],
    relevance := mkRat 1 2, highlightedText := some (str "abc") }

/-- A citation with confidence 0. -/
def zeroConfCitation : Citation :=
  { id := str "z", source := str "z", type := .web, content := [],
    relevance := mkRat 1 2, confidence := some 0 }

/-- The round-trip input of the specification. -/
def roundTripInput : Str :=
  str "Fact A [Source:1] Title - http://x.com (2024-01-01)\nFact B [CITE:1]more text[/CITE:1]"

/-- Two citations with out-of-order source names (for the bibliography
in-place sort). -/
def bibCexA : Citation :=
  { id := str "A", source := str "a", type := .web, content := [], relevance := 0 }

/-- Second citation of the bibliography counterexample pair. -/
def bibCexB : Citation :=
  { id := str "B", source := str "b", type := .web, content := [], relevance := 0 }

/- ===================== general helper lemmas ===================== -/

theorem findSome?_exists {α β : Type} {f : α → Option β} {b : β} :
    ∀ {l : List α}, l.findSome? f = some b → ∃ a ∈ l, f a = some b := by
  intro l
  induction l with
  | nil => intro h; simp [List.findSome?] at h
  | cons x xs ih =>
    intro h
    rw [List.findSome?_cons] at h
    cases hx : f x with
    | some v =>
      rw [hx] at h
      refine ⟨x, by simp, ?_⟩
      rw [hx]
      exact h
    | none =>
      rw [hx] at h
      obtain ⟨a, ha, hfa⟩ := ih h
      exact ⟨a, by simp [ha], hfa⟩

theorem mem_jsInsert {α : Type} {lt : α → α → Bool} {x y : α} :
    ∀ {l : List α}, y ∈ jsInsert lt x l ↔ y = x ∨ y ∈ l := by
  intro l
  induction l with
  | nil => simp [jsInsert]
  | cons z zs ih =>
    by_cases h : lt x z
    · simp [jsInsert, h]
    · simp only [jsInsert, if_neg h, List.mem_cons, ih]
      tauto

theorem chain_jsInsert {α : Type} {lt : α → α → Bool}
    (hA : ∀ a b, lt a b = true → lt b a = false) (x : α) :
    ∀ l, List.Chain' (fun a b => lt b a = false) l →
      List.Chain' (fun a b => lt b a = false) (jsInsert lt x l) := by
  intro l
  induction l with
  | nil => intro _; simp [jsInsert]
  | cons y ys ih =>
    intro hc
    by_cases hxy : lt x y
    · simp only [jsInsert, if_pos hxy]
      exact List.Chain'.cons (hA x y hxy) hc
    · simp only [jsInsert, if_neg hxy]
      have hys : List.Chain' (fun a b => lt b a = false) ys := hc.tail
      refine List.chain'_cons'.mpr ⟨?_, ih hys⟩
      intro z hz
      cases ys with
      | nil =>
        simp [jsInsert] at hz
        subst hz
        exact Bool.eq_false_iff.mpr (fun h => hxy h)
      | cons w ws =>
        by_cases hxw : lt x w
        · simp only [jsInsert, if_pos hxw, List.head?_cons, Option.mem_def,
            Option.some.injEq] at hz
          subst hz
          exact Bool.eq_false_iff.mpr (fun h => hxy h)
        · simp only [jsInsert, if_neg hxw, List.head?_cons, Option.mem_def,
            Option.some.injEq] at hz
          subst hz
          exact (List.chain'_cons.mp hc).1

theorem chain_jsSort {α : Type} (lt : α → α → Bool)
    (hA : ∀ a b, lt a b = true → lt b a = false) (l : List α) :
    List.Chain' (fun a b => lt b a = false) (jsSort lt l) := by
  suffices h : ∀ acc, List.Chain' (fun a b => lt b a = false) acc →
      List.Chain' (fun a b => lt b a = false)
        (l.foldl (fun acc x => jsInsert lt x acc) acc) by
    exact h [] (by simp)
  induction l with
  | nil => intro acc hacc; exact hacc
  | cons x xs ih =>
    intro acc hacc
    exact ih (jsInsert lt x acc) (chain_jsInsert hA x acc hacc)

theorem mem_jsSort {α : Type} (lt : α → α → Bool) {y : α} {l : List α} :
    y ∈ jsSort lt l ↔ y ∈ l := by
  suffices h : ∀ acc, y ∈ l.foldl (fun acc x => jsInsert lt x acc) acc ↔
      y ∈ acc ∨ y ∈ l by
    simpa using h []
  induction l with
  | nil => intro acc; simp
  | cons x xs ih =>
    intro acc
    rw [List.foldl_cons, ih]
    simp [mem_jsInsert]
    tauto

theorem rankCmp_antisym (a b : Citation) : rankCmp a b = -rankCmp b a := by
  unfold rankCmp
  have h : a.relevance - b.relevance = -(b.relevance - a.relevance) := by ring
  rw [h, abs_neg]
  split <;> ring

theorem rankLt_asym (a b : Citation) (h : decide (rankCmp a b < 0) = true) :
    decide (rankCmp b a < 0) = false := by
  rw [decide_eq_true_eq] at h
  rw [decide_eq_false_iff_not]
  rw [rankCmp_antisym] at h
  intro hc
  have := neg_neg_of_pos (by linarith : (0:ℚ) < rankCmp b a)
  linarith

theorem take_glue (s : Str) {a b : Nat} (h : a ≤ b) :
    s.take a ++ (s.take b).drop a = s.take b := by
  conv_rhs => rw [← List.take_append_drop a (s.take b)]
  rw [List.take_take, min_eq_left h]

theorem jsSubstring_eq {s : Str} {a b : Nat} (hab : a ≤ b) (ha : a ≤ s.length) :
    jsSubstring s a b = (s.take b).drop a := by
  unfold jsSubstring
  have h1 : min a s.length = a := min_eq_left ha
  have h2 : a ≤ min b s.length := le_min hab ha
  simp only [h1]
  rw [min_eq_left h2, max_eq_right h2]
  congr 1
  rcases le_or_lt b s.length with hb | hb
  · rw [min_eq_left hb]
  · rw [min_eq_right (le_of_lt hb), List.take_length,
      List.take_of_length_le (le_of_lt hb)]

theorem jsIndexOf_le {hay needle : Str} {i : Nat} (h : jsIndexOf hay needle = some i) :
    i ≤ hay.length := by
  unfold jsIndexOf at h
  have hm := List.mem_of_find?_eq_some h
  rw [List.mem_range] at hm
  omega

theorem jsIndexOf_found {hay needle : Str} {i : Nat} (h : jsIndexOf hay needle = some i) :
    needle.isPrefixOf (hay.drop i) = true := by
  unfold jsIndexOf at h
  have := List.find?_some h
  simpa using this


/- ===================== C3: filterAndRankCitations ===================== -/

theorem filterAndRank_cex_eval :
    filterAndRankCitations [rankCexA, rankCexB] 0 10 = [rankCexA, rankCexB] := by
  have habs : |(mkRat 1 2 : ℚ) - mkRat 13 25| = mkRat 1 50 := by
    rw [show (mkRat 1 2 : ℚ) - mkRat 13 25 = -(mkRat 1 50) from by
        norm_num [Rat.mkRat_eq_div],
      abs_neg, abs_of_pos (by norm_num [Rat.mkRat_eq_div])]
  have hBA : rankCmp rankCexB rankCexA = mkRat 4 5 := by
    unfold rankCmp rankCexA rankCexB jsOrZero
    simp only [Option.getD_some]
    rw [habs, if_neg (by norm_num [Rat.mkRat_eq_div])]
    norm_num [Rat.mkRat_eq_div]
  have hlt : decide (rankCmp rankCexB rankCexA < 0) = false := by
    rw [hBA, decide_eq_false_iff_not]
    norm_num [Rat.mkRat_eq_div]
  have hqa : decide ((0:ℚ) ≤ jsOrZero rankCexA.quality) = true := by
    rw [decide_eq_true_eq]
    norm_num [rankCexA, jsOrZero, Rat.mkRat_eq_div]
  have hqb : decide ((0:ℚ) ≤ jsOrZero rankCexB.quality) = true := by
    rw [decide_eq_true_eq]
    norm_num [rankCexB, jsOrZero, Rat.mkRat_eq_div]
  unfold filterAndRankCitations
  rw [List.filter_cons, List.filter_cons, List.filter_nil]
  simp only [hqa, hqb, if_true]
  rw [List.foldl_cons, List.foldl_cons, List.foldl_nil]
  simp only [jsInsert, hlt, Bool.false_eq_true, if_false]
  rfl

/-- C3 counterexample: with relevance 0.5 / quality 0.9 against relevance
0.52 / quality 0.1, the relevances differ by 0.02 (inside the 0.05 epsilon
band), so the comparator orders by quality and the higher-quality,
lower-relevance citation comes first — the output of
`filterAndRankCitations` is not sorted descending by relevance. -/
theorem filterAndRank_not_relevance_sorted :
    ¬ List.Chain' (fun a b => b.relevance ≤ a.relevance)
      (filterAndRankCitations [rankCexA, rankCexB] 0 10) := by
  rw [filterAndRank_cex_eval]
  intro h
  have h1 := (List.chain'_cons.mp h).1
  unfold rankCexA rankCexB at h1
  simp only at h1
  rw [show (mkRat 13 25 : ℚ) = 13/25 from by norm_num [Rat.mkRat_eq_div],
    show (mkRat 1 2 : ℚ) = 1/2 from by norm_num [Rat.mkRat_eq_div]] at h1
  norm_num at h1

/-- C3 amended: the output of `filterAndRankCitations` has length at most
`maxCitations`, contains no citation whose (defaulted) quality is below
`minQuality`, and every adjacent pair is ordered by the epsilon-band
comparator (`rankCmp a b ≤ 0`); since that comparator is not transitive,
global descending order by relevance does not follow — and in fact
fails. -/
theorem filterAndRank_spec (citations : List Citation) (minQuality : ℚ)
    (maxCitations : Nat) :
    (filterAndRankCitations citations minQuality maxCitations).length ≤ maxCitations ∧
    (∀ c ∈ filterAndRankCitations citations minQuality maxCitations,
      minQuality ≤ jsOrZero c.quality) ∧
    List.Chain' (fun a b => rankCmp a b ≤ 0)
      (filterAndRankCitations citations minQuality maxCitations) := by
  refine ⟨?_, ?_, ?_⟩
  · unfold filterAndRankCitations
    exact List.length_take_le _ _
  · intro c hc
    unfold filterAndRankCitations at hc
    have hc2 := List.mem_of_mem_take hc
    have hc3 : c ∈ citations.filter
        (fun citation => decide (minQuality ≤ jsOrZero citation.quality)) :=
      (mem_jsSort (fun a b => decide (rankCmp a b < 0))).mp hc2
    simpa using (List.mem_filter.mp hc3).2
  · have hchain := chain_jsSort (fun a b => decide (rankCmp a b < 0))
      (fun a b => rankLt_asym a b)
      (citations.filter (fun citation => decide (minQuality ≤ jsOrZero citation.quality)))
    have hchain2 := hchain.take maxCitations
    unfold filterAndRankCitations
    refine List.Chain'.imp ?_ hchain2
    intro a b hab
    have h2 := of_decide_eq_false hab
    rw [rankCmp_antisym]
    linarith [not_lt.mp h2]

/-- C3 witness: the amended properties at a concrete input, with the
membership hypothesis discharged at the first output element. -/
theorem filterAndRank_spec_witness :
    (filterAndRankCitations [rankCexA, rankCexB] 0 10).length ≤ 10 ∧
    (0 : ℚ) ≤ jsOrZero rankCexA.quality ∧
    List.Chain' (fun a b => rankCmp a b ≤ 0)
      (filterAndRankCitations [rankCexA, rankCexB] 0 10) :=
  ⟨(filterAndRank_spec [rankCexA, rankCexB] 0 10).1,
   (filterAndRank_spec [rankCexA, rankCexB] 0 10).2.1 rankCexA
     (by rw [filterAndRank_cex_eval]; simp),
   (filterAndRank_spec [rankCexA, rankCexB] 0 10).2.2⟩

/- ===================== C9: generateBibliography sorts in place ===================== -/

theorem jsLocaleLt_asym : ∀ a b : Str, jsLocaleLt a b = true → jsLocaleLt b a = false := by
  intro a
  induction a with
  | nil => intro b h; cases b <;> simp_all [jsLocaleLt]
  | cons x xs ih =>
    intro b h
    cases b with
    | nil => simp [jsLocaleLt] at h
    | cons y ys =>
      unfold jsLocaleLt at h ⊢
      by_cases hxy : x < y
      · have hyx : ¬ y < x := lt_asymm hxy
        simp [hxy, hyx]
      · by_cases hyx : y < x
        · simp [hxy, hyx] at h
        · simp only [if_neg hxy, if_neg hyx] at h ⊢
          exact ih ys h

/-- C9: `generateBibliography` sorts its input array in place (modelled by
the second component of the result, the post-call state of the caller's
array): whenever the input is not already sorted by source name, the
caller's array is reordered — it is not left unchanged by the call. -/
theorem generateBibliography_reorders (citations : List Citation)
    (h : ¬ List.Chain' (fun a b => jsLocaleLt b.source a.source = false) citations) :
    (generateBibliography citations).2 ≠ citations := by
  intro heq
  apply h
  have hchain := chain_jsSort (fun a b => jsLocaleLt a.source b.source)
    (fun a b hab => jsLocaleLt_asym _ _ hab) citations
  rw [show jsSort (fun a b => jsLocaleLt a.source b.source) citations =
      (generateBibliography citations).2 from rfl, heq] at hchain
  exact hchain

/-- C9 witness: a concrete two-element unsorted array is reordered. -/
theorem generateBibliography_reorders_witness :
    (generateBibliography [bibCexB, bibCexA]).2 ≠ [bibCexB, bibCexA] :=
  generateBibliography_reorders [bibCexB, bibCexA] (by
    intro h
    have h1 := (List.chain'_cons.mp h).1
    simp [bibCexA, bibCexB, jsLocaleLt, str] at h1)

/- ===================== C10: createSourceDiscovery confidence ===================== -/

/-- C10: the aggregate confidence defaults to 0.7 whenever the mean of the
(defaulted) confidences is not a positive number: exactly 0.7 for the
empty list (`NaN || 0.7`) and for every non-empty list whose confidences
are all 0 (`0 || 0.7`); an aggregate confidence of 0 is never returned. -/
theorem discoveryConfidence_default :
    discoveryConfidence [] = 7/10 ∧
    (∀ citations : List Citation, citations ≠ [] →
      (∀ c ∈ citations, jsOrZero c.confidence = 0) →
      discoveryConfidence citations = 7/10) ∧
    (∀ citations : List Citation, discoveryConfidence citations ≠ 0) := by
  refine ⟨by norm_num [discoveryConfidence, Rat.mkRat_eq_div], ?_, ?_⟩
  · intro citations hne hall
    unfold discoveryConfidence
    rw [if_neg (by simpa using hne)]
    have hsum : (citations.map (fun c => jsOrZero c.confidence)).sum = 0 := by
      apply List.sum_eq_zero
      intro x hx
      obtain ⟨c, hc, rfl⟩ := List.mem_map.mp hx
      exact hall c hc
    rw [hsum]
    norm_num [Rat.mkRat_eq_div]
  · intro citations
    unfold discoveryConfidence
    split
    · norm_num [Rat.mkRat_eq_div]
    · split
      · norm_num [Rat.mkRat_eq_div]
      · assumption

/-- C10 witness: both defaulting clauses discharged at a concrete
one-element list with confidence 0, and at `createSourceDiscovery`
itself. -/
theorem discoveryConfidence_default_witness :
    discoveryConfidence [zeroConfCitation] = 7/10 ∧
    (createSourceDiscovery (str "q") [zeroConfCitation] (str "ctx")).confidence ≠ 0 :=
  ⟨discoveryConfidence_default.2.1 [zeroConfCitation] (by simp)
     (by intro c hc; simp at hc; subst hc; rfl),
   discoveryConfidence_default.2.2 [zeroConfCitation]⟩

/- ===================== anchor-matching segmenter lemmas ===================== -/

theorem concatSegs_append (l1 l2 : List Seg) :
    concatSegs (l1 ++ l2) = concatSegs l1 ++ concatSegs l2 := by
  simp [concatSegs]

theorem concatSegs_single (s : Seg) : concatSegs [s] = s.text := by
  simp [concatSegs]

theorem refChain_snoc (refs : List Ref) (r : Ref) (h : RefChain refs)
    (hb : ∀ x ∈ refs, x.highlightEnd ≤ r.highlightStart) :
    RefChain (refs ++ [r]) := by
  unfold RefChain at *
  rw [List.chain'_append]
  refine ⟨h, List.chain'_singleton r, ?_⟩
  intro x hx y hy
  simp only [List.head?_cons, Option.mem_def, Option.some.injEq] at hy
  subst hy
  obtain ⟨hne, rfl⟩ := List.mem_getLast?_eq_getLast hx
  exact hb _ (List.getLast_mem hne)

theorem pteMatchIndex_le {text : Str} {citation : Citation} {i : Nat}
    (h : pteMatchIndex text citation = some i) : i ≤ text.length := by
  unfold pteMatchIndex at h
  cases hj : jsIndexOf (jsToLower text) (pteNeedle citation) with
  | some j =>
    rw [hj] at h
    cases h
    have := jsIndexOf_le hj
    simpa [jsToLower] using this
  | none =>
    rw [hj] at h
    obtain ⟨phrase, _, hp⟩ := findSome?_exists h
    by_cases hlen : 15 ≤ phrase.length
    · rw [if_pos hlen] at hp
      have := jsIndexOf_le hp
      simpa [jsToLower] using this
    · rw [if_neg hlen] at hp
      cases hp

theorem pteStep_spec (text : Str) (ci : Nat) (segs : List Seg) (refs : List Ref)
    (citation : Citation)
    (h1 : ci ≤ text.length) (h2 : concatSegs segs = text.take ci)
    (h3 : RefChain refs) (h4 : ∀ r ∈ refs, r.highlightEnd ≤ ci) :
    (pteStep text (ci, segs, refs) citation).1 ≤ text.length ∧
    concatSegs (pteStep text (ci, segs, refs) citation).2.1 =
      text.take (pteStep text (ci, segs, refs) citation).1 ∧
    RefChain (pteStep text (ci, segs, refs) citation).2.2 ∧
    (∀ r ∈ (pteStep text (ci, segs, refs) citation).2.2,
      r.highlightEnd ≤ (pteStep text (ci, segs, refs) citation).1) := by
  unfold pteStep
  cases hmi : pteMatchIndex text citation with
  | none => exact ⟨h1, h2, h3, h4⟩
  | some matchIndex =>
    by_cases hile : ci ≤ matchIndex
    case neg =>
      simp only [if_neg hile]
      exact ⟨h1, h2, h3, h4⟩
    case pos =>
      have hmle : matchIndex ≤ text.length := pteMatchIndex_le hmi
      simp only [if_pos hile]
      set hl := (jsOrStr citation.highlightedText (jsSubstring citation.content 0 100)).length
        with hhl
      have hme : matchIndex ≤ min (matchIndex + hl) text.length :=
        le_min (Nat.le_add_right _ _) hmle
      have hee : min (matchIndex + hl) text.length ≤ text.length := min_le_right _ _
      refine ⟨hee, ?_, ?_, ?_⟩
      · by_cases hlt : ci < matchIndex
        · simp only [if_pos hlt]
          rw [concatSegs_append, concatSegs_append, concatSegs_single, concatSegs_single]
          dsimp only
          rw [h2, jsSubstring_eq (le_of_lt hlt) h1, jsSubstring_eq hme hmle,
            take_glue _ (le_of_lt hlt), take_glue _ hme]
        · have heq : ci = matchIndex := Nat.le_antisymm hile (Nat.not_lt.mp hlt)
          simp only [if_neg hlt]
          rw [concatSegs_append, concatSegs_single]
          dsimp only
          rw [h2, jsSubstring_eq hme hmle, heq, take_glue _ hme]
      · exact refChain_snoc _ _ h3 (fun x hx => le_trans (h4 x hx) hile)
      · intro r hr
        rcases List.mem_append.mp hr with hro | hrn
        · exact le_trans (h4 r hro) (le_trans hile hme)
        · simp at hrn
          subst hrn
          exact le_refl _

theorem pteFold_spec (text : Str) :
    ∀ (citations : List Citation) (ci : Nat) (segs : List Seg) (refs : List Ref),
    ci ≤ text.length → concatSegs segs = text.take ci → RefChain refs →
    (∀ r ∈ refs, r.highlightEnd ≤ ci) →
    (citations.foldl (pteStep text) (ci, segs, refs)).1 ≤ text.length ∧
    concatSegs (citations.foldl (pteStep text) (ci, segs, refs)).2.1 =
      text.take (citations.foldl (pteStep text) (ci, segs, refs)).1 ∧
    RefChain (citations.foldl (pteStep text) (ci, segs, refs)).2.2 ∧
    (∀ r ∈ (citations.foldl (pteStep text) (ci, segs, refs)).2.2,
      r.highlightEnd ≤ (citations.foldl (pteStep text) (ci, segs, refs)).1) := by
  intro citations
  induction citations with
  | nil => intro ci segs refs h1 h2 h3 h4; exact ⟨h1, h2, h3, h4⟩
  | cons c cs ih =>
    intro ci segs refs h1 h2 h3 h4
    rw [List.foldl_cons]
    obtain ⟨g1, g2, g3, g4⟩ := pteStep_spec text ci segs refs c h1 h2 h3 h4
    have := ih (pteStep text (ci, segs, refs) c).1
      (pteStep text (ci, segs, refs) c).2.1 (pteStep text (ci, segs, refs) c).2.2
      g1 g2 g3 g4
    simpa using this

/- ===================== exec-loop and wrapped-citation lemmas ===================== -/

theorem firstMatchFrom_spec {M : Matcher} {s : Str} {p : Nat} {mi : MatchInfo}
    (h : firstMatchFrom M s p = some mi) :
    p ≤ mi.index ∧ M s mi.index = some (mi.length, mi.caps) := by
  unfold firstMatchFrom at h
  obtain ⟨i, hi, hfi⟩ := findSome?_exists h
  rw [List.mem_range'] at hi
  obtain ⟨k, _, rfl⟩ := hi
  cases hmsi : M s (p + 1 * k) with
  | none => rw [hmsi] at hfi; cases hfi
  | some r =>
    rw [hmsi] at hfi
    simp only [Option.map_some', Option.some.injEq] at hfi
    subst hfi
    exact ⟨(by omega : p ≤ p + 1 * k), hmsi⟩

theorem execAllAux_spec (M : Matcher) (s : Str) (Q : MatchInfo → Prop)
    (hQ : ∀ mi, M s mi.index = some (mi.length, mi.caps) → Q mi) :
    ∀ fuel p, (∀ m ∈ execAllAux M s fuel p, Q m ∧ p ≤ m.index) ∧
      List.Chain' (fun a b => a.index + a.length ≤ b.index) (execAllAux M s fuel p) := by
  intro fuel
  induction fuel with
  | zero => intro p; simp [execAllAux]
  | succ fuel ih =>
    intro p
    unfold execAllAux
    cases hf : firstMatchFrom M s p with
    | none => simp
    | some mi =>
      obtain ⟨hple, hM⟩ := firstMatchFrom_spec hf
      by_cases hguard : mi.index + mi.length ≤ p
      · simp [hguard]
      · simp only [if_neg hguard]
        obtain ⟨ihmem, ihchain⟩ := ih (mi.index + mi.length)
        constructor
        · intro m hm
          rcases List.mem_cons.mp hm with rfl | hm'
          · exact ⟨hQ m hM, hple⟩
          · obtain ⟨hq, hge⟩ := ihmem m hm'
            exact ⟨hq, by omega⟩
        · rw [List.chain'_cons']
          refine ⟨?_, ihchain⟩
          intro y hy
          exact (ihmem y (List.mem_of_mem_head? hy)).2

theorem execAll_spec (M : Matcher) (s : Str) (Q : MatchInfo → Prop)
    (hQ : ∀ mi, M s mi.index = some (mi.length, mi.caps) → Q mi) :
    (∀ m ∈ execAll M s, Q m) ∧
      List.Chain' (fun a b => a.index + a.length ≤ b.index) (execAll M s) := by
  obtain ⟨hmem, hchain⟩ := execAllAux_spec M s Q hQ (s.length + 2) 0
  exact ⟨fun m hm => (hmem m hm).1, hchain⟩

theorem tryClose_len {r : Str} {d : Str} {cl : Nat} (h : tryClose r = some (d, cl)) :
    cl = 8 + d.length := by
  unfold tryClose at h
  cases h1 : dropLit (str "[/CITE:") r with
  | none => rw [h1] at h; cases h
  | some r1 =>
    rw [h1] at h
    simp only [Option.bind_eq_bind, Option.some_bind] at h
    cases h2 : digitsThen (str "]") r1 with
    | none => rw [h2] at h; cases h
    | some pr =>
      rw [h2] at h
      simp only [Option.some_bind, Option.some.injEq] at h
      cases h
      rfl

theorem findClose_len : ∀ (r acc : Str) {cited d2 : Str} {t : Nat},
    findClose acc r = some (cited, d2, t) → t = cited.length + (8 + d2.length) := by
  intro r
  induction r with
  | nil =>
    intro acc cited d2 t h
    unfold findClose at h
    cases htc : tryClose [] with
    | some pr =>
      rw [htc] at h
      simp only [Option.map_some', Option.some.injEq, Prod.mk.injEq] at h
      obtain ⟨h1, h2, h3⟩ := h
      subst h1; subst h2; subst h3
      rw [tryClose_len htc]
      simp
    | none => rw [htc] at h; cases h
  | cons c r' ih =>
    intro acc cited d2 t h
    unfold findClose at h
    cases htc : tryClose (c :: r') with
    | some pr =>
      rw [htc] at h
      simp only [Option.some.injEq, Prod.mk.injEq] at h
      obtain ⟨h1, h2, h3⟩ := h
      subst h1; subst h2; subst h3
      rw [tryClose_len htc]
      simp
    | none =>
      rw [htc] at h
      by_cases hc : c = '\n'
      · rw [if_pos hc] at h; cases h
      · rw [if_neg hc] at h
        have := ih (c :: acc) h
        simpa using this

theorem matchWrappedAt_citedLen {s : Str} {p len : Nat} {caps : List Str}
    (h : matchWrappedAt s p = some (len, caps)) :
    (caps.getD 1 []).length ≤ len := by
  unfold matchWrappedAt at h
  cases h1 : dropLit (str "[CITE:") (s.drop p) with
  | none => rw [h1] at h; cases h
  | some r =>
    rw [h1] at h
    simp only [Option.bind_eq_bind, Option.some_bind] at h
    cases h2 : digitsThen (str "]") r with
    | none => rw [h2] at h; cases h
    | some pr =>
      rw [h2] at h
      obtain ⟨d1, r1⟩ := pr
      simp only [Option.some_bind] at h
      cases h3 : findClose [] r1 with
      | none => rw [h3] at h; cases h
      | some tr =>
        rw [h3] at h
        obtain ⟨cited, d2, tailLen⟩ := tr
        simp only [Option.some_bind, Option.pure_def, Option.some.injEq,
          Prod.mk.injEq] at h
        obtain ⟨hlen, hcaps⟩ := h
        subst hlen; subst hcaps
        have hfc := findClose_len r1 [] h3
        simp only [List.getD_cons_succ, List.getD_cons_zero]
        omega

theorem chain_le_all {l : List MatchInfo} {m : MatchInfo}
    (h : List.Chain' (fun a b => a.index + a.length ≤ b.index) (m :: l)) :
    ∀ x ∈ l, m.index + m.length ≤ x.index := by
  induction l generalizing m with
  | nil => simp
  | cons a l ih =>
    intro x hx
    have h1 := (List.chain'_cons.mp h).1
    have h2 := (List.chain'_cons.mp h).2
    rcases List.mem_cons.mp hx with rfl | hx'
    · exact h1
    · have := ih (m := a) h2 x hx'
      omega

theorem wrappedStep_spec (cleanText : Str) (segs : List Seg) (refs : List Ref)
    (sources : SMap) (lastIndex : Nat) (m : MatchInfo)
    (hml : lastIndex ≤ m.index) (hcl : (m.caps.getD 1 []).length ≤ m.length)
    (h3 : RefChain refs) (h4 : ∀ r ∈ refs, r.highlightEnd ≤ lastIndex) :
    (wrappedStep cleanText (segs, refs, sources, lastIndex) m).2.2.2 =
      m.index + m.length ∧
    RefChain (wrappedStep cleanText (segs, refs, sources, lastIndex) m).2.1 ∧
    (∀ r ∈ (wrappedStep cleanText (segs, refs, sources, lastIndex) m).2.1,
      r.highlightEnd ≤ m.index + m.length) := by
  unfold wrappedStep
  dsimp only
  cases hlk : sources.lookup (m.caps.getD 0 []) with
  | none =>
    refine ⟨rfl, h3, ?_⟩
    intro r hr
    exact le_trans (h4 r hr) (by omega)
  | some citation =>
    refine ⟨rfl, ?_, ?_⟩
    · exact refChain_snoc _ _ h3 (fun x hx => le_trans (h4 x hx) hml)
    · intro r hr
      rcases List.mem_append.mp hr with hro | hrn
      · exact le_trans (h4 r hro) (by omega)
      · simp at hrn
        subst hrn
        have hcl' : (m.caps[1]?.getD []).length ≤ m.length := by
          simpa [List.getD] using hcl
        simp only
        omega

theorem wrappedFold_spec (cleanText : Str) :
    ∀ (ms : List MatchInfo) (segs : List Seg) (refs : List Ref) (sources : SMap)
      (lastIndex : Nat),
    List.Chain' (fun a b => a.index + a.length ≤ b.index) ms →
    (∀ m ∈ ms, lastIndex ≤ m.index ∧ (m.caps.getD 1 []).length ≤ m.length) →
    RefChain refs → (∀ r ∈ refs, r.highlightEnd ≤ lastIndex) →
    RefChain (ms.foldl (wrappedStep cleanText) (segs, refs, sources, lastIndex)).2.1 ∧
    (∀ r ∈ (ms.foldl (wrappedStep cleanText) (segs, refs, sources, lastIndex)).2.1,
      r.highlightEnd ≤
        (ms.foldl (wrappedStep cleanText) (segs, refs, sources, lastIndex)).2.2.2) := by
  intro ms
  induction ms with
  | nil => intro segs refs sources lastIndex _ _ h3 h4; exact ⟨h3, h4⟩
  | cons m ms ih =>
    intro segs refs sources lastIndex hchain hms h3 h4
    rw [List.foldl_cons]
    obtain ⟨hm1, hm2⟩ := hms m (by simp)
    obtain ⟨g1, g2, g3⟩ := wrappedStep_spec cleanText segs refs sources lastIndex m
      hm1 hm2 h3 h4
    have hrest := chain_le_all hchain
    have := ih (wrappedStep cleanText (segs, refs, sources, lastIndex) m).1
      (wrappedStep cleanText (segs, refs, sources, lastIndex) m).2.1
      (wrappedStep cleanText (segs, refs, sources, lastIndex) m).2.2.1
      (wrappedStep cleanText (segs, refs, sources, lastIndex) m).2.2.2
      (List.chain'_cons'.mp hchain).2
      (fun x hx => ⟨by rw [g1]; exact hrest x hx, (hms x (by simp [hx])).2⟩)
      g2 (by rw [g1]; exact g3)
    simpa using this

/- ===================== C1: losslessness ===================== -/

/-- C1 counterexample: on wrapped-citation input the concatenation of the
produced segment texts is "A x" — the `[CITE:1]`/`[/CITE:1]` markers and
the whitespace-only gap are gone — which differs from the text that was
fed to the segmenter (here equal to the input, which is already
trimmed). -/
theorem segments_not_lossless_cx :
    (parseTextWithHighlighting (str "A [CITE:1]x[/CITE:1]") []).map
      (fun o => concatSegs o.segments) = some (str "A x") ∧
    str "A x" ≠ str "A [CITE:1]x[/CITE:1]" := by
  constructor
  · decide
  · decide

/-- C1 amended: losslessness holds for the anchor-matching fallback
segmenter `parseTextWithExistingCitations`: for every text and citation
set, concatenating the segment texts in order reproduces the input text
exactly.  (For the marker dialects it fails: markers are stripped,
whitespace-only gaps are dropped, and highlighted sentences are
trimmed.) -/
theorem pte_lossless (text : Str) (citations : List Citation) :
    concatSegs (parseTextWithExistingCitations text citations).segments = text := by
  obtain ⟨h1, h2, _, _⟩ := pteFold_spec text citations 0 [] []
    (Nat.zero_le _) (by simp [concatSegs]) (by simp [RefChain]) (by simp)
  unfold parseTextWithExistingCitations
  generalize hst : citations.foldl (pteStep text)
    (0, ([] : List Seg), ([] : List Ref)) = st at h1 h2 ⊢
  obtain ⟨ci, segs, refs⟩ := st
  dsimp only at h1 h2 ⊢
  by_cases hci : ci < text.length
  · rw [if_pos hci]
    have hne : (segs ++ [(⟨text.drop ci, false, none⟩ : Seg)]).isEmpty = false := by
      cases segs <;> simp [List.isEmpty]
    rw [if_neg (by simp [hne])]
    rw [concatSegs_append, concatSegs_single, h2]
    exact List.take_append_drop ci text
  · have hcieq : ci = text.length := Nat.le_antisymm h1 (Nat.not_lt.mp hci)
    rw [if_neg hci]
    by_cases hemp : segs.isEmpty
    · rw [if_pos (by simp [hemp])]
      rw [concatSegs_single]
    · rw [if_neg (by simp [hemp])]
      rw [h2, hcieq, List.take_length]

/- ===================== C4: segment ordering / non-overlap ===================== -/

/-- C4 counterexample: on an input whose two bare `[CITE:n]` markers share
one sentence, the end-of-sentence segmenter never returns: the
sentence-boundary regex matches the empty string at position 0 via `^`
without advancing `lastIndex`, so the `exec` loop spins forever (the
embedding returns `none`).  No segment list is produced at all in this
mode, so in particular no ordering invariant holds of it. -/
theorem eos_mode_diverges_cx :
    parseTextWithHighlighting (str "A claim [CITE:1] more words [CITE:2].") [] = none := by
  decide

/-- C4 amended: in the two modes that terminate — the anchor-matching
segmenter and the wrapped-citation segmenter — highlight spans are
produced in left-to-right order and never overlap: each reference ends at
or before the next begins.  (The end-of-sentence mode produces nothing:
its sentence scan does not terminate whenever a bare marker is present and
the text before it does not begin with a sentence delimiter.) -/
theorem segmenter_nonoverlap :
    (∀ text citations,
      RefChain (parseTextWithExistingCitations text citations).references) ∧
    (∀ cleanText sources extracted,
      RefChain (parseWrappedCitations cleanText sources extracted).references) := by
  constructor
  · intro text citations
    obtain ⟨_, _, h3, _⟩ := pteFold_spec text citations 0 [] []
      (Nat.zero_le _) (by simp [concatSegs]) (by simp [RefChain]) (by simp)
    unfold parseTextWithExistingCitations
    generalize hst : citations.foldl (pteStep text)
      (0, ([] : List Seg), ([] : List Ref)) = st at h3 ⊢
    obtain ⟨ci, segs, refs⟩ := st
    dsimp only at h3 ⊢
    exact h3
  · intro cleanText sources extracted
    have hQ : ∀ mi : MatchInfo, matchWrappedAt cleanText mi.index =
        some (mi.length, mi.caps) → (mi.caps.getD 1 []).length ≤ mi.length :=
      fun mi h => matchWrappedAt_citedLen h
    obtain ⟨hmem, hchain⟩ := execAll_spec matchWrappedAt cleanText _ hQ
    obtain ⟨hc, _⟩ := wrappedFold_spec cleanText (execAll matchWrappedAt cleanText)
      [] []
      (addFallbacks (dedupIds ((execAll matchCiteAt cleanText).map capId))
        (sources, extracted)).1
      0 hchain (fun m hm => ⟨Nat.zero_le _, hmem m hm⟩)
      (by simp [RefChain]) (by simp)
    exact hc

/- ===================== C6: anchor search does not start at the cursor ===================== -/

/-- C6 counterexample: in `"abc def abc"` with two citations, the anchor
`"abc"` of the second citation occurs at index 8, at or after the cursor
(7), yet the citation is discarded: the search runs from position 0, finds
index 0, and the `matchIndex >= currentIndex` guard rejects it — only one
highlighted segment is produced, not two. -/
theorem anchor_search_cx :
    (parseTextWithExistingCitations (str "abc def abc")
        [anchorCexA, anchorCexB]).segments =
      [⟨str "abc def", true, some (str "c1")⟩, ⟨str " abc", false, none⟩] ∧
    (str "abc").isPrefixOf ((str "abc def abc").drop 8) = true := by
  constructor
  · decide
  · decide

/-- C6 amended: the exact case-insensitive search of the anchor-matching
step runs over the whole text from position 0 (not from the cursor);
whenever the first occurrence of the needle lies strictly before the
cursor, the citation is skipped entirely — the state is returned
unchanged — even if the anchor also occurs at or after the cursor. -/
theorem pteStep_skips_before_cursor (text : Str) (currentIndex : Nat)
    (segs : List Seg) (refs : List Ref) (citation : Citation) (i : Nat)
    (h : jsIndexOf (jsToLower text) (pteNeedle citation) = some i)
    (hlt : i < currentIndex) :
    pteStep text (currentIndex, segs, refs) citation = (currentIndex, segs, refs) := by
  unfold pteStep pteMatchIndex
  rw [h]
  dsimp only
  rw [if_neg (by omega)]

/-- C6 witness: the amended skip behaviour at the concrete counterexample
state. -/
theorem pteStep_skips_before_cursor_witness :
    pteStep (str "abc def abc") (7, [], []) anchorCexB = (7, [], []) :=
  pteStep_skips_before_cursor (str "abc def abc") 7 [] [] anchorCexB 0
    (by decide) (by decide)

/- ===================== C8: no-marker fallback ===================== -/

theorem removeSpans_nil (s : Str) : removeSpans s [] = s := by
  simp [removeSpans]

/-- C8 counterexample: on the marker-free input `" hi "` the parser
returns one unhighlighted segment whose text is the trimmed copy `"hi"`,
not the whole input. -/
theorem noMarkers_trims_cx :
    (parseTextWithHighlighting (str " hi ") []).map
      (fun o => o.segments.map Seg.text) = some [str "hi"] ∧
    str "hi" ≠ str " hi " := by
  constructor
  · decide
  · decide

/-- C8 amended: for every input containing zero citation markers of any
dialect (no simplified source entry, no backwards-compatible pipe entry,
no legacy pipe marker, no bare or wrapped `[CITE:n]` marker) and any
citation set, `parseTextWithHighlighting` returns exactly one segment with
`isHighlighted = false` whose text is the trimmed input — equal to the
whole input only when the input has no leading or trailing whitespace —
and never raises (in particular the non-terminating sentence scan is not
reached). -/
theorem noMarkers_spec (text : Str) (citations : List Citation)
    (hs : execAll matchSourceAt text = [])
    (ho : execAll matchOldSourceAt text = [])
    (_hleg : execAll matchLegacyAt text = [])
    (hc : execAll matchCiteAt (jsTrim text) = [])
    (hw : firstMatchFrom matchWrappedAt (jsTrim text) 0 = none) :
    parseTextWithHighlighting text citations =
      some { segments := [⟨jsTrim text, false, none⟩], references := [],
             sources := [], extracted := [] } := by
  have hclean : inlineCleanText text = jsTrim text := by
    unfold inlineCleanText
    rw [hs, removeSpans_nil, ho, removeSpans_nil]
  have hsrcst : inlineSources text = ([], []) := by
    unfold inlineSources
    rw [hs, ho]
    simp
  have hinline : parseInlineCitations text =
      some { segments := [⟨jsTrim text, false, none⟩], references := [],
             sources := [], extracted := [] } := by
    unfold parseInlineCitations
    rw [hclean, hw, hsrcst]
    unfold parseEndOfSentenceCitations eosFallbacks
    rw [hc]
    simp [addFallbacks, dedupIds]
  unfold parseTextWithHighlighting
  rw [hinline]
  simp [List.isEmpty]

/-- C8 witness: the amended behaviour at the concrete input `" hi "`, all
five no-marker hypotheses discharged by evaluation. -/
theorem noMarkers_spec_witness :
    parseTextWithHighlighting (str " hi ") [] =
      some { segments := [⟨jsTrim (str " hi "), false, none⟩], references := [],
             sources := [], extracted := [] } :=
  noMarkers_spec (str " hi ") [] (by decide) (by decide) (by decide)
    (by decide) (by decide)

/- ===================== C2: dialect priority ===================== -/

/-- C2 counterexample: an input containing only a legacy pipe-delimited
marker is not parsed by the legacy pipe parser: the top-level parse
returns it as a single unhighlighted segment (the inline pass always
returns its segment list here), although `parseTextWithMarkers` itself
would produce a highlighted segment for it. -/
theorem legacy_dialect_unreachable_cx :
    (parseTextWithHighlighting legacyInput []).map
      (fun o => o.segments.any Seg.isHighlighted) = some false ∧
    (parseTextWithMarkers legacyInput).segments.any Seg.isHighlighted = true := by
  constructor
  · decide
  · decide

/-- C2 amended: the dialect order is wrapped inline, then bare end-marker
(both handled by the inline pass), then legacy pipe-delimited, then anchor
matching; the legacy pipe parser is reached only when the inline pass
yields zero segments (which requires bare markers whose surrounding text
is all whitespace), so an input containing only legacy pipe-delimited
markers is swallowed by the inline pass as a single unhighlighted segment
and the legacy parser never runs on it. -/
theorem dialect_priority :
    (∀ text citations r, parseInlineCitations text = some r →
      r.segments ≠ [] → parseTextWithHighlighting text citations = some r) ∧
    parseTextWithHighlighting legacyInput [] =
      some { segments := [⟨legacyInput, false, none⟩], references := [],
             sources := [], extracted := [] } := by
  constructor
  · intro text citations r hinl hne
    unfold parseTextWithHighlighting
    rw [hinl]
    simp [List.isEmpty_iff, hne]
  · decide

/-- C2 witness: the gating clause applied at a concrete wrapped-citation
input, hypotheses discharged by evaluation. -/
theorem dialect_priority_witness :
    parseTextWithHighlighting (str "A [CITE:1]x[/CITE:1]") [] =
      some ((parseInlineCitations (str "A [CITE:1]x[/CITE:1]")).getD
        ⟨[], [], [], []⟩) :=
  dialect_priority.1 (str "A [CITE:1]x[/CITE:1]") [] _ (by decide) (by decide)

/- ===================== C7: round-trip scenario ===================== -/

/-- C7: parsing the round-trip input with an empty citation set produces
exactly one highlighted segment, its text is `"more text"`, and the
citation it is tagged with has url `"http://x.com"`. -/
theorem roundTrip_spec :
    (parseTextWithHighlighting roundTripInput []).map (fun out =>
      ((out.segments.filter Seg.isHighlighted).map Seg.text,
       (out.segments.filter Seg.isHighlighted).map
         (fun sg => urlOfCitation out sg.citationId))) =
    some ([str "more text"], [some (str "http://x.com")]) := by
  decide

/- ===================== C5: score range invariant ===================== -/

theorem parseConfidence_bounds (confidence : Str) :
    0 ≤ parseConfidence confidence ∧ parseConfidence confidence ≤ 1 := by
  simp only [parseConfidence]
  split_ifs <;> constructor <;> norm_num [Rat.mkRat_eq_div]

theorem calculateQualityFromUrl_bounds (url : Str) :
    0 ≤ calculateQualityFromUrl url ∧ calculateQualityFromUrl url ≤ 1 := by
  simp only [calculateQualityFromUrl]
  split_ifs <;>
    exact ⟨le_min (by norm_num [Rat.mkRat_eq_div]) (by norm_num), min_le_right _ _⟩

theorem scoresOk_mkSourceCitation (caps : List Str) :
    scoresOk (mkSourceCitation caps) := by
  unfold scoresOk mkSourceCitation
  refine ⟨by norm_num [Rat.mkRat_eq_div], by norm_num [Rat.mkRat_eq_div], ?_, ?_⟩
  · intro q hq
    simp only [Option.mem_def, Option.some.injEq] at hq
    subst hq
    constructor <;> norm_num [Rat.mkRat_eq_div]
  · intro q hq
    simp only [Option.mem_def, Option.some.injEq] at hq
    subst hq
    exact calculateQualityFromUrl_bounds _

theorem scoresOk_mkOldSourceCitation (caps : List Str) :
    scoresOk (mkOldSourceCitation caps) := by
  unfold scoresOk mkOldSourceCitation
  refine ⟨(parseConfidence_bounds _).1, (parseConfidence_bounds _).2, ?_, ?_⟩
  · intro q hq
    simp only [Option.mem_def, Option.some.injEq] at hq
    subst hq
    exact parseConfidence_bounds _
  · intro q hq
    simp only [Option.mem_def, Option.some.injEq] at hq
    subst hq
    exact calculateQualityFromUrl_bounds _

theorem scoresOk_fallbackCitation (citationId : Str) :
    scoresOk (fallbackCitation citationId) := by
  unfold scoresOk fallbackCitation
  refine ⟨by norm_num [Rat.mkRat_eq_div], by norm_num [Rat.mkRat_eq_div], ?_, ?_⟩
  · intro q hq
    simp only [Option.mem_def, Option.some.injEq] at hq
    subst hq
    constructor <;> norm_num [Rat.mkRat_eq_div]
  · intro q hq
    simp only [Option.mem_def, Option.some.injEq] at hq
    subst hq
    constructor <;> norm_num [Rat.mkRat_eq_div]

theorem scoresOk_mkLegacyCitation (text : Str) (ord : Nat) (mi : MatchInfo) :
    scoresOk (mkLegacyCitation text ord mi) := by
  unfold scoresOk mkLegacyCitation
  refine ⟨(parseConfidence_bounds _).1, (parseConfidence_bounds _).2, ?_, ?_⟩
  · intro q hq
    simp only [Option.mem_def, Option.some.injEq] at hq
    subst hq
    exact parseConfidence_bounds _
  · intro q hq
    simp only [Option.mem_def, Option.some.injEq] at hq
    subst hq
    exact calculateQualityFromUrl_bounds _

theorem foldl_extracted_ok {β : Type} (f : (SMap × List Citation) → β → SMap × List Citation)
    (hf : ∀ st b, (∀ c ∈ st.2, scoresOk c) → ∀ c ∈ (f st b).2, scoresOk c) :
    ∀ (l : List β) (st : SMap × List Citation),
      (∀ c ∈ st.2, scoresOk c) → ∀ c ∈ (l.foldl f st).2, scoresOk c := by
  intro l
  induction l with
  | nil => intro st h; exact h
  | cons b bs ih =>
    intro st h
    rw [List.foldl_cons]
    exact ih _ (hf st b h)

theorem addFallbacks_ok (ids : List Str) (st : SMap × List Citation)
    (h : ∀ c ∈ st.2, scoresOk c) : ∀ c ∈ (addFallbacks ids st).2, scoresOk c := by
  unfold addFallbacks
  refine foldl_extracted_ok _ ?_ ids st h
  intro st' cid hst' c hc
  by_cases hhas : mapHas st'.1 cid
  · rw [if_pos hhas] at hc
    exact hst' c hc
  · rw [if_neg hhas] at hc
    rcases List.mem_append.mp hc with h1 | h2
    · exact hst' c h1
    · simp only [List.mem_singleton] at h2
      subst h2
      exact scoresOk_fallbackCitation cid

theorem eos_extracted_ok (cleanText : Str) (sources : SMap)
    (extracted : List Citation) (hbase : ∀ c ∈ extracted, scoresOk c)
    (out : ParseOut)
    (h : parseEndOfSentenceCitations cleanText sources extracted = some out) :
    ∀ c ∈ out.extracted, scoresOk c := by
  unfold parseEndOfSentenceCitations at h
  by_cases hemp : (execAll matchCiteAt cleanText).isEmpty
  · rw [if_pos hemp] at h
    simp only [Option.some.injEq] at h
    subst h
    exact addFallbacks_ok _ _ hbase
  · rw [if_neg hemp] at h
    cases hg : eosGo cleanText (eosText cleanText) []
        (jsSort (fun a b => a.index < b.index) (execAll matchCiteAt cleanText)) [] []
        (eosFallbacks cleanText sources extracted).1 0 with
    | none => rw [hg] at h; cases h
    | some st =>
      rw [hg] at h
      simp only [Option.map_some', Option.some.injEq] at h
      subst h
      exact addFallbacks_ok _ _ hbase

theorem parseWrapped_extracted_eq (cleanText : Str) (sources : SMap)
    (extracted : List Citation) :
    (parseWrappedCitations cleanText sources extracted).extracted =
      (addFallbacks (dedupIds ((execAll matchCiteAt cleanText).map capId))
        (sources, extracted)).2 := rfl

theorem pte_extracted_eq (text : Str) (citations : List Citation) :
    (parseTextWithExistingCitations text citations).extracted = [] := rfl

theorem parseTextWithMarkers_extracted_eq (text : Str) :
    (parseTextWithMarkers text).extracted =
      ((execAll matchLegacyAt text).enum.map
        (fun p => (p.2, mkLegacyCitation text p.1 p.2))).map Prod.snd := by
  unfold parseTextWithMarkers
  rw [apply_ite ParseOut.extracted]
  dsimp only
  rw [ite_self]

theorem parseInline_extracted_ok (text : Str) (out : ParseOut)
    (h : parseInlineCitations text = some out) : ∀ c ∈ out.extracted, scoresOk c := by
  have h1 : ∀ c ∈ (inlineSources text).2, scoresOk c := by
    unfold inlineSources
    refine foldl_extracted_ok _ ?_ _ _ ?_
    · intro st m hst c hc
      by_cases hhas : mapHas st.1 (capId m)
      · rw [if_pos hhas] at hc
        exact hst c hc
      · rw [if_neg hhas] at hc
        rcases List.mem_append.mp hc with hm1 | hm2
        · exact hst c hm1
        · simp only [List.mem_singleton] at hm2
          subst hm2
          exact scoresOk_mkOldSourceCitation _
    · refine foldl_extracted_ok _ ?_ _ _ (by simp)
      intro st m hst c hc
      rcases List.mem_append.mp hc with hm1 | hm2
      · exact hst c hm1
      · simp only [List.mem_singleton] at hm2
        subst hm2
        exact scoresOk_mkSourceCitation _
  unfold parseInlineCitations at h
  cases hw : firstMatchFrom matchWrappedAt (inlineCleanText text) 0 with
  | some mi =>
    rw [hw] at h
    simp only [Option.some.injEq] at h
    subst h
    intro c hc
    rw [parseWrapped_extracted_eq] at hc
    exact addFallbacks_ok _ _ h1 c hc
  | none =>
    rw [hw] at h
    exact eos_extracted_ok _ _ _ h1 out h

theorem markers_extracted_ok (text : Str) :
    ∀ c ∈ (parseTextWithMarkers text).extracted, scoresOk c := by
  rw [parseTextWithMarkers_extracted_eq]
  intro c hc
  simp only [List.mem_map] at hc
  obtain ⟨p, ⟨q, _, rfl⟩, rfl⟩ := hc
  exact scoresOk_mkLegacyCitation _ _ _

/-- C5: every citation produced by any parse path has relevance,
confidence and quality within [0, 1]: the confidence-label map and the
URL-quality heuristic land in [0, 1] for every input string, and every
citation in the extracted set of a completed parse satisfies the
bounds. -/
theorem score_range_invariant :
    (∀ confidence, 0 ≤ parseConfidence confidence ∧ parseConfidence confidence ≤ 1) ∧
    (∀ url, 0 ≤ calculateQualityFromUrl url ∧ calculateQualityFromUrl url ≤ 1) ∧
    (∀ text citations out, parseTextWithHighlighting text citations = some out →
      ∀ c ∈ out.extracted, scoresOk c) := by
  refine ⟨parseConfidence_bounds, calculateQualityFromUrl_bounds, ?_⟩
  intro text citations out h
  unfold parseTextWithHighlighting at h
  cases hinl : parseInlineCitations text with
  | none => rw [hinl] at h; cases h
  | some r =>
    rw [hinl] at h
    simp only [Option.some_bind] at h
    by_cases hre : r.segments.isEmpty
    · rw [if_pos hre] at h
      by_cases hme : (parseTextWithMarkers text).segments.isEmpty
      · rw [if_pos hme] at h
        simp only [Option.some.injEq] at h
        subst h
        intro c hc
        rw [pte_extracted_eq] at hc
        cases hc
      · rw [if_neg hme] at h
        simp only [Option.some.injEq] at h
        subst h
        exact markers_extracted_ok text
    · rw [if_neg hre] at h
      simp only [Option.some.injEq] at h
      subst h
      exact parseInline_extracted_ok text r hinl

/-- C5 witness: the bound at the fallback citation extracted from a
concrete wrapped-citation parse, hypotheses discharged by evaluation. -/
theorem score_range_invariant_witness :
    scoresOk ((((parseTextWithHighlighting (str "[CITE:1]x[/CITE:1]") []).getD
      ⟨[], [], [], []⟩).extracted).getD 0 (fallbackCitation (str "1"))) :=
  score_range_invariant.2.2 (str "[CITE:1]x[/CITE:1]") []
    ((parseTextWithHighlighting (str "[CITE:1]x[/CITE:1]") []).getD ⟨[], [], [], []⟩)
    (by decide)
    ((((parseTextWithHighlighting (str "[CITE:1]x[/CITE:1]") []).getD
      ⟨[], [], [], []⟩).extracted).getD 0 (fallbackCitation (str "1")))
    (by decide)
